import Mathlib

/-!
Shallow embedding of the Otoracle pipeline Obsidian plugin
(src/main.ts, src/settings.ts) for verifying the natural-language
specification.  Strings are modelled as lists of Unicode scalar values
(\x7bList Char\x7d); character classes from the JavaScript regular
expressions are modelled through code points (Char.toNat).
-/

open List

/-- Character class of the JavaScript regex escape w (no u flag):
ASCII letters A-Z (65-90) and a-z (97-122), digits 0-9 (48-57) and
underscore (95). -/
def isWordChar (c : Char) : Bool :=
  (65 ≤ c.toNat && c.toNat ≤ 90) || (97 ≤ c.toNat && c.toNat ≤ 122) ||
  (48 ≤ c.toNat && c.toNat ≤ 57) || c.toNat == 95

/-- Character class of the JavaScript regex escape s (also the set trimmed
by String.prototype.trim): space, tab, LF, VT, FF, CR, NBSP, U+1680,
U+2000-U+200A, U+2028, U+2029, U+202F, U+205F, U+3000 and U+FEFF. -/
def isJsSpace (c : Char) : Bool :=
  c.toNat == 32 || (9 ≤ c.toNat && c.toNat ≤ 13) || c.toNat == 160 ||
  c.toNat == 5760 || (8192 ≤ c.toNat && c.toNat ≤ 8202) || c.toNat == 8232 ||
  c.toNat == 8233 || c.toNat == 8239 || c.toNat == 8287 ||
  c.toNat == 12288 || c.toNat == 65279

/-- Characters kept by the slugify step replace(/[^\w\s-]/g, ''):
word characters, whitespace and the hyphen (code point 45). -/
def keepSlugChar (c : Char) : Bool :=
  isWordChar c || isJsSpace c || c.toNat == 45

/-- Characters that can appear in a finished slug: lowercase ASCII
letters, digits, underscore or hyphen.  (Used only in proofs.) -/
def isSlugChar (c : Char) : Bool :=
  (97 ≤ c.toNat && c.toNat ≤ 122) || (48 ≤ c.toNat && c.toNat ≤ 57) ||
  c.toNat == 95 || c.toNat == 45

/-- Replace each maximal run of JS whitespace by a single hyphen,
modelling replace(/\s+/g, '-') from slugify (src/main.ts:56).  The
hyphen is emitted at the end of each run, which produces the same string
as replacing the whole run at once. -/
def replaceSpaceRuns : List Char → List Char
  | [] => []
  | [c] => if isJsSpace c then ['-'] else [c]
  | a :: b :: t =>
    if isJsSpace a then
      if isJsSpace b then replaceSpaceRuns (b :: t)
      else '-' :: replaceSpaceRuns (b :: t)
    else a :: replaceSpaceRuns (b :: t)

/-- Collapse each maximal run of hyphens to a single hyphen, modelling
the replace step with pattern "-+" and replacement "-" from slugify
(src/main.ts:57).  The surviving hyphen is the last one of each run,
which produces the same string as replacing the whole run at once. -/
def replaceDashRuns : List Char → List Char
  | [] => []
  | [c] => [c]
  | a :: b :: t =>
    if a = '-' ∧ b = '-' then replaceDashRuns (b :: t)
    else a :: replaceDashRuns (b :: t)

/-- Remove one leading hyphen when present. -/
def trimLeadDash (l : List Char) : List Char :=
  if l.head? = some '-' then l.tail else l

/-- Remove one trailing hyphen when present. -/
def trimTrailDash (l : List Char) : List Char :=
  if l.getLast? = some '-' then l.dropLast else l

/-- Remove one leading and one trailing hyphen, modelling
replace(/^-|-$/g, '') from slugify (src/main.ts:58): with the global
flag this regex matches at most one hyphen at the start and one at the
end of the string. -/
def trimDashes (l : List Char) : List Char :=
  trimTrailDash (trimLeadDash l)

/-- slugify (src/main.ts:52-59): lowercase, drop every character that is
not a word character, whitespace or hyphen, replace whitespace runs by
single hyphens, collapse hyphen runs, trim a leading and a trailing
hyphen.  Char.toLower agrees with String.prototype.toLowerCase on the
ASCII range, the only range that can reach the later stages. -/
def slugify (s : List Char) : List Char :=
  trimDashes (replaceDashRuns (replaceSpaceRuns
    ((s.map Char.toLower).filter keepSlugChar)))

/-- String.prototype.trim: remove JS whitespace from both ends. -/
def jsTrim (l : List Char) : List Char :=
  ((l.dropWhile isJsSpace).reverse.dropWhile isJsSpace).reverse

/-- First element of collectionName.split(/\s+/) as used at
src/main.ts:79: the characters before the first whitespace character
(empty when the string starts with whitespace, matching the empty first
split field JavaScript produces in that case). -/
def firstSplitToken (s : List Char) : List Char :=
  s.takeWhile (fun c => !isJsSpace c)

/-- buildCitationKey (src/main.ts:78-82): slug of the first
whitespace-delimited token of the collection name, a hyphen, and the
slug of the title truncated to its first 60 characters after
slugification (slice(0, 60) is applied to slugify(title)). -/
def buildCitationKey (collectionName title : List Char) : List Char :=
  let bookWord := slugify (firstSplitToken collectionName)
  let titleSlug := (slugify title).take 60
  bookWord ++ '-' :: titleSlug

/-- Double every double-quote character, modelling
val.replace(/"/g, '""') (src/main.ts:86). -/
def doubleQuotes : List Char → List Char
  | [] => []
  | c :: t => if c = '"' then '"' :: '"' :: doubleQuotes t else c :: doubleQuotes t

/-- escapeCSV (src/main.ts:84-89): quote the field and double internal
quotes when it contains a comma, a double quote or a newline. -/
def escapeCSV (val : List Char) : List Char :=
  if val.contains ',' || val.contains '"' || val.contains '\n' then
    '"' :: (doubleQuotes val ++ ['"'])
  else val

/-- Modelled from the spec: the undoubling half of a standard CSV
reader, replacing each doubled quote by a single quote. -/
def undoubleQuotes : List Char → List Char
  | [] => []
  | [c] => [c]
  | a :: b :: t =>
    if a = '"' ∧ b = '"' then '"' :: undoubleQuotes t
    else a :: undoubleQuotes (b :: t)

/-- Modelled from the spec: a standard CSV reader for a single field —
strip one layer of surrounding quotes and undouble internal quotes;
fields not wrapped in quotes are returned unchanged. -/
def csvUnquote (l : List Char) : List Char :=
  match l with
  | '"' :: rest =>
    if rest.getLast? = some '"' then undoubleQuotes rest.dropLast else l
  | _ => l

theorem charOfNat_toNat_of_lt {n : Nat} (h : n < 55296) : (Char.ofNat n).toNat = n := by
  have hv : n.isValidChar := Or.inl h
  simp [Char.ofNat, hv, Char.ofNatAux, Char.toNat, UInt32.toNat]

theorem toLower_toNat (c : Char) :
    (Char.toLower c).toNat =
      if 65 ≤ c.toNat ∧ c.toNat ≤ 90 then c.toNat + 32 else c.toNat := by
  unfold Char.toLower
  split
  case isTrue h =>
    rw [if_pos (And.intro h.1 h.2)]
    exact charOfNat_toNat_of_lt (by omega)
  case isFalse h =>
    rw [if_neg (by omega)]

theorem toLower_eq_self {c : Char} (h : ¬(65 ≤ c.toNat ∧ c.toNat ≤ 90)) :
    Char.toLower c = c := by
  show (if c.toNat ≥ 65 ∧ c.toNat ≤ 90 then Char.ofNat (c.toNat + 32) else c) = c
  rw [if_neg (by omega)]

theorem toLower_not_upper (c : Char) :
    ¬(65 ≤ (Char.toLower c).toNat ∧ (Char.toLower c).toNat ≤ 90) := by
  rw [toLower_toNat]
  split
  all_goals omega

/-- Induction principle following the one- and two-element patterns of
the run-collapsing functions. -/
theorem twoStepInd {motive : List Char → Prop} (h1 : motive [])
    (h2 : ∀ c, motive [c])
    (h3 : ∀ a b t, motive (b :: t) → motive (a :: b :: t)) :
    ∀ l, motive l
  | [] => h1
  | [c] => h2 c
  | a :: b :: t => h3 a b t (twoStepInd h1 h2 h3 (b :: t))

/-- Absence of two adjacent hyphens, the shape left by the hyphen-run
collapsing step. -/
def DashOk (l : List Char) : Prop :=
  List.Chain' (fun a b => ¬(a = '-' ∧ b = '-')) l

theorem dashOk_symm_rel (a b : Char) (h : ¬(a = '-' ∧ b = '-')) :
    ¬(b = '-' ∧ a = '-') := fun hc => h (And.intro hc.2 hc.1)

theorem dashOk_reverse {l : List Char} (h : DashOk l) : DashOk l.reverse := by
  unfold DashOk
  rw [List.chain'_reverse]
  exact h.imp (fun a b hab => dashOk_symm_rel a b hab)

theorem mem_replaceSpaceRuns :
    ∀ l c, c ∈ replaceSpaceRuns l → (c ∈ l ∧ isJsSpace c = false) ∨ c = '-' := by
  intro l
  induction l using twoStepInd with
  | h1 => intro c hc; simp [replaceSpaceRuns] at hc
  | h2 d =>
    intro c hc
    by_cases hd : isJsSpace d
    · simp [replaceSpaceRuns, hd] at hc
      right; exact hc
    · simp [replaceSpaceRuns, hd] at hc
      left
      subst hc
      exact And.intro (by simp) (by simpa using hd)
  | h3 a b t ih =>
    intro c hc
    by_cases ha : isJsSpace a
    · by_cases hb : isJsSpace b
      · simp only [replaceSpaceRuns, ha, hb, if_pos] at hc
        rcases ih c hc with h | h
        · left; exact And.intro (List.mem_cons_of_mem a h.1) h.2
        · right; exact h
      · simp only [replaceSpaceRuns, ha, hb, if_pos, if_neg] at hc
        rcases List.mem_cons.mp hc with h | h
        · right; exact h
        · rcases ih c h with h2 | h2
          · left; exact And.intro (List.mem_cons_of_mem a h2.1) h2.2
          · right; exact h2
    · simp only [replaceSpaceRuns, ha, if_neg, if_pos] at hc
      rcases List.mem_cons.mp hc with h | h
      · subst h
        left
        exact And.intro (List.mem_cons_self c _) (by simpa using ha)
      · rcases ih c h with h2 | h2
        · left; exact And.intro (List.mem_cons_of_mem a h2.1) h2.2
        · right; exact h2

theorem replaceSpaceRuns_eq_self :
    ∀ l, (∀ c ∈ l, isJsSpace c = false) → replaceSpaceRuns l = l := by
  intro l
  induction l using twoStepInd with
  | h1 => intro _; rfl
  | h2 d =>
    intro h
    have hd := h d (List.mem_cons_self d [])
    simp [replaceSpaceRuns, hd]
  | h3 a b t ih =>
    intro h
    have ha := h a (List.mem_cons_self a _)
    have hrest : ∀ c ∈ b :: t, isJsSpace c = false :=
      fun c hc => h c (List.mem_cons_of_mem a hc)
    simp only [replaceSpaceRuns, ha]
    simp only [Bool.false_eq_true, if_false]
    rw [ih hrest]

theorem mem_replaceDashRuns : ∀ l c, c ∈ replaceDashRuns l → c ∈ l := by
  intro l
  induction l using twoStepInd with
  | h1 => intro c hc; simp [replaceDashRuns] at hc
  | h2 d => intro c hc; simpa [replaceDashRuns] using hc
  | h3 a b t ih =>
    intro c hc
    by_cases hab : a = '-' ∧ b = '-'
    · simp only [replaceDashRuns, if_pos hab] at hc
      exact List.mem_cons_of_mem a (ih c hc)
    · simp only [replaceDashRuns, if_neg hab] at hc
      rcases List.mem_cons.mp hc with h | h
      · subst h; exact List.mem_cons_self c _
      · exact List.mem_cons_of_mem a (ih c h)

theorem head?_replaceDashRuns : ∀ l, (replaceDashRuns l).head? = l.head? := by
  intro l
  induction l using twoStepInd with
  | h1 => rfl
  | h2 d => rfl
  | h3 a b t ih =>
    by_cases hab : a = '-' ∧ b = '-'
    · simp only [replaceDashRuns, if_pos hab, ih]
      simp [hab.1, hab.2]
    · simp [replaceDashRuns, if_neg hab]

theorem dashOk_replaceDashRuns : ∀ l, DashOk (replaceDashRuns l) := by
  intro l
  induction l using twoStepInd with
  | h1 => exact List.chain'_nil
  | h2 d => exact List.chain'_singleton d
  | h3 a b t ih =>
    by_cases hab : a = '-' ∧ b = '-'
    · simpa only [replaceDashRuns, if_pos hab] using ih
    · simp only [replaceDashRuns, if_neg hab]
      unfold DashOk
      rw [List.chain'_cons']
      constructor
      · intro y hy
        rw [head?_replaceDashRuns] at hy
        simp only [List.head?_cons, Option.mem_def, Option.some.injEq] at hy
        subst hy
        exact hab
      · exact ih

theorem replaceDashRuns_eq_self : ∀ l, DashOk l → replaceDashRuns l = l := by
  intro l
  induction l using twoStepInd with
  | h1 => intro _; rfl
  | h2 d => intro _; rfl
  | h3 a b t ih =>
    intro h
    have hab : ¬(a = '-' ∧ b = '-') := (List.chain'_cons.mp h).1
    simp only [replaceDashRuns, if_neg hab]
    rw [ih (List.chain'_cons.mp h).2]

theorem chain'_dropLast {R : Char → Char → Prop} :
    ∀ l, List.Chain' R l → List.Chain' R l.dropLast := by
  intro l
  induction l using twoStepInd with
  | h1 => intro _; exact List.chain'_nil
  | h2 d => intro _; exact List.chain'_nil
  | h3 a b t ih =>
    intro h
    show List.Chain' R (a :: (b :: t).dropLast)
    rw [List.chain'_cons']
    constructor
    · intro y hy
      cases t with
      | nil => simp at hy
      | cons u t2 =>
        simp only [List.dropLast_cons₂, List.head?_cons, Option.mem_def,
          Option.some.injEq] at hy
        subst hy
        exact (List.chain'_cons.mp h).1
    · exact ih (List.chain'_cons.mp h).2

theorem head?_dropLast_imp {l : List Char} {c : Char}
    (h : l.dropLast.head? = some c) : l.head? = some c := by
  cases l with
  | nil => simp at h
  | cons a t =>
    cases t with
    | nil => simp at h
    | cons b t2 =>
      simp only [List.dropLast_cons₂, List.head?_cons] at h ⊢
      exact h

theorem head?_trimLead_ne {l : List Char} (h : DashOk l) :
    (trimLeadDash l).head? ≠ some '-' := by
  unfold trimLeadDash
  cases l with
  | nil => simp
  | cons a t =>
    by_cases ha : a = '-'
    · subst ha
      rw [if_pos (by simp)]
      cases t with
      | nil => simp
      | cons b t2 =>
        have hb : ¬('-' = '-' ∧ b = '-') := (List.chain'_cons.mp h).1
        simp only [List.tail_cons, List.head?_cons, ne_eq, Option.some.injEq]
        intro hb2
        exact hb (And.intro rfl hb2)
    · rw [if_neg (by simp [ha])]
      simp [ha]

theorem trimTrail_reverse_eq {x : List Char} :
    (trimTrailDash x).reverse = trimLeadDash x.reverse := by
  unfold trimTrailDash trimLeadDash
  rw [List.head?_reverse]
  by_cases h : x.getLast? = some '-'
  · rw [if_pos h, if_pos h]
    exact (List.tail_reverse x).symm
  · rw [if_neg h, if_neg h]

theorem subset_trimLeadDash (l : List Char) : trimLeadDash l ⊆ l := by
  unfold trimLeadDash
  split
  · exact (List.tail_sublist l).subset
  · exact fun y hy => hy

theorem subset_trimTrailDash (l : List Char) : trimTrailDash l ⊆ l := by
  unfold trimTrailDash
  split
  · exact (List.dropLast_sublist l).subset
  · exact fun y hy => hy

theorem dashOk_trimLeadDash {l : List Char} (h : DashOk l) :
    DashOk (trimLeadDash l) := by
  unfold trimLeadDash
  split
  · cases l with
    | nil => exact List.chain'_nil
    | cons a t => exact h.tail
  · exact h

theorem dashOk_trimTrailDash {l : List Char} (h : DashOk l) :
    DashOk (trimTrailDash l) := by
  unfold trimTrailDash
  split
  · exact chain'_dropLast l h
  · exact h

theorem head?_trimTrailDash_imp {l : List Char} {c : Char}
    (h : (trimTrailDash l).head? = some c) : l.head? = some c := by
  unfold trimTrailDash at h
  split at h
  · exact head?_dropLast_imp h
  · exact h

theorem getLast?_trimTrailDash_ne {l : List Char} (h : DashOk l) :
    (trimTrailDash l).getLast? ≠ some '-' := by
  have h2 : (trimTrailDash l).getLast? = (trimLeadDash l.reverse).head? := by
    rw [← trimTrail_reverse_eq]
    exact (List.head?_reverse (trimTrailDash l)).symm
  rw [h2]
  exact head?_trimLead_ne (dashOk_reverse h)

theorem slugify_nf (s : List Char) :
    (∀ c ∈ slugify s, isSlugChar c = true) ∧ DashOk (slugify s) ∧
    (slugify s).head? ≠ some '-' ∧ (slugify s).getLast? ≠ some '-' := by
  have hfil : ∀ c ∈ (s.map Char.toLower).filter keepSlugChar,
      isSlugChar c = true ∨ isJsSpace c = true := by
    intro c hc
    have hmem := List.mem_filter.mp hc
    obtain ⟨x, _, hxc⟩ := List.mem_map.mp hmem.1
    have hkeep : keepSlugChar c = true := hmem.2
    have hup : ¬(65 ≤ c.toNat ∧ c.toNat ≤ 90) := by
      rw [← hxc]; exact toLower_not_upper x
    simp only [keepSlugChar, isWordChar, isJsSpace, isSlugChar,
      Bool.or_eq_true, Bool.and_eq_true, decide_eq_true_eq, beq_iff_eq] at hkeep ⊢
    omega
  have hrsr : ∀ c ∈ replaceSpaceRuns ((s.map Char.toLower).filter keepSlugChar),
      isSlugChar c = true := by
    intro c hc
    rcases mem_replaceSpaceRuns _ c hc with ⟨hmem, hns⟩ | hdash
    · rcases hfil c hmem with h | h
      · exact h
      · rw [h] at hns; cases hns
    · subst hdash; decide
  have hrdr : ∀ c ∈ replaceDashRuns (replaceSpaceRuns
      ((s.map Char.toLower).filter keepSlugChar)), isSlugChar c = true :=
    fun c hc => hrsr c (mem_replaceDashRuns _ c hc)
  have hdo : DashOk (replaceDashRuns (replaceSpaceRuns
      ((s.map Char.toLower).filter keepSlugChar))) := dashOk_replaceDashRuns _
  have hslug : slugify s = trimTrailDash (trimLeadDash (replaceDashRuns
      (replaceSpaceRuns ((s.map Char.toLower).filter keepSlugChar)))) := rfl
  refine ⟨?_, ?_, ?_, ?_⟩
  · intro c hc
    rw [hslug] at hc
    exact hrdr c (subset_trimLeadDash _ (subset_trimTrailDash _ hc))
  · rw [hslug]
    exact dashOk_trimTrailDash (dashOk_trimLeadDash hdo)
  · rw [hslug]
    intro hcon
    exact head?_trimLead_ne hdo (head?_trimTrailDash_imp hcon)
  · rw [hslug]
    exact getLast?_trimTrailDash_ne (dashOk_trimLeadDash hdo)

theorem slugify_eq_self {l : List Char} (hc : ∀ c ∈ l, isSlugChar c = true)
    (hd : DashOk l) (hh : l.head? ≠ some '-') (hl : l.getLast? ≠ some '-') :
    slugify l = l := by
  have hmap : l.map Char.toLower = l := by
    have : ∀ c ∈ l, Char.toLower c = id c := by
      intro c hcl
      have h := hc c hcl
      simp only [isSlugChar, Bool.or_eq_true, Bool.and_eq_true,
        decide_eq_true_eq, beq_iff_eq] at h
      exact toLower_eq_self (by omega)
    rw [List.map_congr_left this, List.map_id]
  have hfil : l.filter keepSlugChar = l := by
    apply List.filter_eq_self.mpr
    intro a ha
    have h := hc a ha
    simp only [isSlugChar, Bool.or_eq_true, Bool.and_eq_true,
      decide_eq_true_eq, beq_iff_eq] at h
    simp only [keepSlugChar, isWordChar, isJsSpace, Bool.or_eq_true,
      Bool.and_eq_true, decide_eq_true_eq, beq_iff_eq]
    omega
  have hnospace : ∀ c ∈ l, isJsSpace c = false := by
    intro c hcl
    have h := hc c hcl
    simp only [isSlugChar, Bool.or_eq_true, Bool.and_eq_true,
      decide_eq_true_eq, beq_iff_eq] at h
    simp only [isJsSpace, Bool.or_eq_true, Bool.and_eq_true,
      decide_eq_true_eq, beq_iff_eq, Bool.eq_false_iff, ne_eq]
    omega
  unfold slugify
  rw [hmap, hfil, replaceSpaceRuns_eq_self l hnospace,
    replaceDashRuns_eq_self l hd]
  unfold trimDashes trimLeadDash trimTrailDash
  rw [if_neg hh, if_neg hl]

/-- C5: slugify is idempotent — applying slugify to its own output
returns the output unchanged, for every input string. -/
theorem slugify_idempotent (s : List Char) :
    slugify (slugify s) = slugify s := by
  obtain ⟨h1, h2, h3, h4⟩ := slugify_nf s
  exact slugify_eq_self h1 h2 h3 h4

theorem char_eq_of_toNat_eq {c d : Char} (h : c.toNat = d.toNat) : c = d :=
  Char.eq_of_val_eq (UInt32.ext h)

theorem undoubleQuotes_cons_ne {a : Char} (ha : a ≠ '"') (l : List Char) :
    undoubleQuotes (a :: l) = a :: undoubleQuotes l := by
  cases l with
  | nil => rfl
  | cons b t =>
    show (if a = '"' ∧ b = '"' then '"' :: undoubleQuotes t
          else a :: undoubleQuotes (b :: t)) = a :: undoubleQuotes (b :: t)
    rw [if_neg (fun hc => ha hc.1)]

theorem undoubleQuotes_doubleQuotes (s : List Char) :
    undoubleQuotes (doubleQuotes s) = s := by
  induction s with
  | nil => rfl
  | cons c t ih =>
    by_cases hc : c = '"'
    · subst hc
      show undoubleQuotes ('"' :: '"' :: doubleQuotes t) = '"' :: t
      show (if ('"' : Char) = '"' ∧ ('"' : Char) = '"' then '"' :: undoubleQuotes (doubleQuotes t)
            else '"' :: undoubleQuotes ('"' :: doubleQuotes t)) = '"' :: t
      rw [if_pos (And.intro rfl rfl), ih]
    · have hd : doubleQuotes (c :: t) = c :: doubleQuotes t := by
        show (if c = '"' then '"' :: '"' :: doubleQuotes t
              else c :: doubleQuotes t) = c :: doubleQuotes t
        rw [if_neg hc]
      rw [hd, undoubleQuotes_cons_ne hc, ih]

theorem csvUnquote_quoted (rest : List Char) :
    csvUnquote ('"' :: rest) =
      if rest.getLast? = some '"' then undoubleQuotes rest.dropLast
      else '"' :: rest := rfl

/-- C4: escaping a field that contains a comma, a double quote or a
newline and then parsing it with a standard CSV reader (strip one layer
of surrounding quotes, undouble internal quotes) returns the original
field. -/
theorem escapeCSV_roundtrip (s : List Char)
    (h : s.contains ',' = true ∨ s.contains '"' = true ∨ s.contains '\n' = true) :
    csvUnquote (escapeCSV s) = s := by
  have hcond : (s.contains ',' || s.contains '"' || s.contains '\n') = true := by
    rcases h with h | h | h
    · rw [h]; simp
    · rw [h]; simp
    · rw [h]; simp
  unfold escapeCSV
  rw [if_pos hcond, csvUnquote_quoted]
  rw [if_pos (List.getLast?_concat (doubleQuotes s)),
    List.dropLast_concat, undoubleQuotes_doubleQuotes]

/-- C4 witness: the round trip at the concrete field "a,b". -/
theorem escapeCSV_roundtrip_witness :
    csvUnquote (escapeCSV ("a,b".data)) = ("a,b".data) :=
  escapeCSV_roundtrip ("a,b".data) (Or.inl (by decide))

/-- The citation-key derivation as the claim words it: the title is
truncated to 60 characters before being slugified. -/
def citationKeyPreTrunc (collectionName title : List Char) : List Char :=
  slugify (firstSplitToken collectionName) ++ '-' :: slugify (title.take 60)

/-- C3 counterexample: for a title of 61 exclamation marks followed by
"abc", truncating before slugification erases the whole "abc" suffix
while the code (which truncates the slug after slugification) keeps it,
so the two derivations disagree. -/
theorem buildCitationKey_preTrunc_cex :
    buildCitationKey ("Book".data) (List.replicate 61 '!' ++ "abc".data) ≠
      citationKeyPreTrunc ("Book".data) (List.replicate 61 '!' ++ "abc".data) := by
  decide

/-- C3 (amended): the citation key is the slugified first
whitespace-delimited token of the collection name, a hyphen, and the
slug of the title truncated to 60 characters, where the truncation is
applied after slugification; the result of the truncation never exceeds
60 characters, and the derivation is a pure function of the pair, e.g.
buildCitationKey "Gray's Anatomy" "Ch. 1" = "grays-ch-1". -/
theorem buildCitationKey_spec :
    (∀ n t, buildCitationKey n t =
      slugify (firstSplitToken n) ++ '-' :: (slugify t).take 60) ∧
    (∀ t, ((slugify t).take 60).length ≤ 60) ∧
    buildCitationKey ("Gray's Anatomy".data) ("Ch. 1".data) = ("grays-ch-1".data) := by
  refine ⟨fun n t => rfl, fun t => ?_, by decide⟩
  exact (slugify t).length_take_le 60

/-- The four source-type values of the settings union type
(src/settings.ts:4). -/
inductive SourceType where
  | textbook
  | paper
  | presentation
  | dataset
deriving DecidableEq, Repr

/-- Separator class inside the first classifier regex: JS whitespace,
dot, underscore or hyphen. -/
def sepClass (c : Char) : Bool :=
  isJsSpace c || c == '.' || c == '_' || c == '-'

/-- Case-insensitive ASCII prefix test: the first characters of the
candidate, lowercased, equal the (already lowercase) pattern. -/
def startsWithCI (pre l : List Char) : Bool :=
  (l.take pre.length).map Char.toLower == pre

/-- After skipping separator characters, the next character is an ASCII
digit. -/
def digitAfterSeps (l : List Char) : Bool :=
  match l.dropWhile sepClass with
  | [] => false
  | c :: _ => c.isDigit

/-- Test of the anchored classifier regex (src/main.ts:72): the name
starts with "ch" or "chapter" (case-insensitive), then optional
separators, then a digit.  When the name starts with "chapter", the
two-letter alternative cannot match (the next character would be the
letter a, which is neither a separator nor a digit), so trying the long
alternative first is exactly the regex backtracking behaviour. -/
def startsWithChNum (l : List Char) : Bool :=
  if startsWithCI ("chapter".data) l then digitAfterSeps (l.drop 7)
  else if startsWithCI ("ch".data) l then digitAfterSeps (l.drop 2)
  else false

/-- A case-insensitive occurrence of the pattern starts at the head of
the remaining list, ending at a word boundary.  Meaningful for
non-empty all-word-character patterns such as "chapter" and "section". -/
def matchWordCIAt (w l : List Char) : Bool :=
  startsWithCI w l &&
    (match (l.drop w.length).head? with
     | none => true
     | some c => !isWordChar c)

/-- Scan for a word-boundary-delimited case-insensitive occurrence of
the pattern; the first argument tracks the character preceding the
current position (none at the start of the string). -/
def hasWordCIFrom (w : List Char) : Option Char → List Char → Bool
  | _, [] => false
  | prev, c :: cs =>
    ((match prev with
      | none => true
      | some p => !isWordChar p) && matchWordCIAt w (c :: cs)) ||
    hasWordCIFrom w (some c) cs

/-- Test of a word regex with boundary anchors on both sides and the i
flag, as in the second and third classifier regexes
(src/main.ts:73-74). -/
def hasWordCI (w l : List Char) : Bool := hasWordCIFrom w none l

/-- guessSourceType (src/main.ts:71-76): textbook when the anchored
chapter-number pattern, the word "chapter" or the word "section"
matches, paper otherwise. -/
def guessSourceType (filename : List Char) : SourceType :=
  if startsWithChNum filename then SourceType.textbook
  else if hasWordCI ("chapter".data) filename then SourceType.textbook
  else if hasWordCI ("section".data) filename then SourceType.textbook
  else SourceType.paper

/-- C7: the classifier is the deterministic function of the file name
that returns textbook exactly when the name starts with "ch" or
"chapter" followed by a number or contains the word "chapter" or
"section" case-insensitively, and paper otherwise; in particular on the
four example names. -/
theorem guessSourceType_spec :
    (∀ f, guessSourceType f =
      (if startsWithChNum f || hasWordCI ("chapter".data) f ||
          hasWordCI ("section".data) f
       then SourceType.textbook else SourceType.paper)) ∧
    guessSourceType ("Chapter 5 Intro.pdf".data) = SourceType.textbook ∧
    guessSourceType ("Smith2023.pdf".data) = SourceType.paper ∧
    guessSourceType ("Section 2 overview.pdf".data) = SourceType.textbook ∧
    guessSourceType ("Ch. 1.pdf".data) = SourceType.textbook := by
  refine ⟨?_, by decide, by decide, by decide, by decide⟩
  intro f
  unfold guessSourceType
  cases h1 : startsWithChNum f
  · cases h2 : hasWordCI ("chapter".data) f
    · cases h3 : hasWordCI ("section".data) f
      · simp
      · simp
    · simp
  · simp

/-- Modelled from the spec: literal reading of the slug recipe in spec
section 4.2 step 1 — lowercase, strip non-word characters (whitespace
has to survive this step for the following one to have meaning, so only
characters that are neither word characters nor whitespace are
stripped; the hyphen is not exempted), collapse whitespace runs to
single hyphens, trim leading and trailing hyphens. -/
def slugifySpecLit (s : List Char) : List Char :=
  let kept := (s.map Char.toLower).filter (fun c => isWordChar c || isJsSpace c)
  let collapsed := replaceSpaceRuns kept
  ((collapsed.dropWhile (fun c => c == '-')).reverse.dropWhile
    (fun c => c == '-')).reverse

/-- Map whitespace to a hyphen, leave other characters alone. -/
def toDashChar (c : Char) : Char := if isJsSpace c then '-' else c

/-- Keep only the last hyphen of every hyphen run. -/
def squeezeDashes (l : List Char) : List Char :=
  l.foldr (fun c acc => if c = '-' ∧ acc.head? = some '-' then acc else c :: acc) []

/-- Remove one trailing hyphen when present (reverse-based phrasing). -/
def dropTrailDashOnce (l : List Char) : List Char :=
  match l.reverse with
  | [] => l
  | c :: t => if c = '-' then t.reverse else l

/-- Remove one leading and then one trailing hyphen. -/
def trimOneDashEnds (l : List Char) : List Char :=
  match l with
  | [] => dropTrailDashOnce []
  | c :: rest =>
    if c = '-' then dropTrailDashOnce rest else dropTrailDashOnce (c :: rest)

/-- The amended spec recipe: lowercase, strip characters that are
neither word characters, whitespace nor hyphens, turn each whitespace
character into a hyphen, keep a single hyphen from every hyphen run,
and trim one leading and one trailing hyphen. -/
def slugifySpecFixed (s : List Char) : List Char :=
  trimOneDashEnds (squeezeDashes
    (((s.map Char.toLower).filter
      (fun c => isWordChar c || isJsSpace c || c == '-')).map toDashChar))

/-- C6 counterexample: on the input "a-b" the literal spec recipe
strips the hyphen as a non-word character and produces "ab", while the
code keeps hyphens and produces "a-b". -/
theorem slugify_specLit_cex :
    slugify ("a-b".data) ≠ slugifySpecLit ("a-b".data) := by decide

/-- Fusion of the whitespace-to-hyphen map with the hyphen-run squeeze,
used to relate the two slug pipelines. -/
def squeezeSpaceDash (l : List Char) : List Char :=
  l.foldr (fun c acc =>
    if toDashChar c = '-' ∧ acc.head? = some '-' then acc
    else toDashChar c :: acc) []

theorem squeezeDashes_map_toDash (l : List Char) :
    squeezeDashes (l.map toDashChar) = squeezeSpaceDash l := by
  unfold squeezeDashes squeezeSpaceDash
  rw [List.foldr_map]

theorem squeeze_cons (a : Char) (t : List Char) :
    squeezeSpaceDash (a :: t) =
      if toDashChar a = '-' ∧ (squeezeSpaceDash t).head? = some '-'
      then squeezeSpaceDash t else toDashChar a :: squeezeSpaceDash t := rfl

theorem head?_squeezeSpaceDash (a : Char) (t : List Char) :
    (squeezeSpaceDash (a :: t)).head? = some (toDashChar a) := by
  rw [squeeze_cons]
  split
  case isTrue h => rw [h.2, h.1]
  case isFalse h => rfl

theorem rsr_cons_cons (a b : Char) (t : List Char) :
    replaceSpaceRuns (a :: b :: t) =
      if isJsSpace a then
        (if isJsSpace b then replaceSpaceRuns (b :: t)
         else '-' :: replaceSpaceRuns (b :: t))
      else a :: replaceSpaceRuns (b :: t) := rfl

theorem rdr_cons_cons (a b : Char) (t : List Char) :
    replaceDashRuns (a :: b :: t) =
      if a = '-' ∧ b = '-' then replaceDashRuns (b :: t)
      else a :: replaceDashRuns (b :: t) := rfl

theorem head?_replaceSpaceRuns :
    ∀ l, (replaceSpaceRuns l).head? = l.head?.map toDashChar := by
  intro l
  induction l using twoStepInd with
  | h1 => rfl
  | h2 c =>
    show (if isJsSpace c then ['-'] else [c]).head? = some (toDashChar c)
    by_cases hc : isJsSpace c
    · rw [if_pos hc]
      unfold toDashChar
      rw [if_pos hc]
      rfl
    · rw [if_neg hc]
      unfold toDashChar
      rw [if_neg hc]
      rfl
  | h3 a b t ih =>
    rw [rsr_cons_cons]
    by_cases ha : isJsSpace a
    · by_cases hb : isJsSpace b
      · rw [if_pos ha, if_pos hb, ih]
        show some (toDashChar b) = some (toDashChar a)
        unfold toDashChar
        rw [if_pos ha, if_pos hb]
      · rw [if_pos ha, if_neg hb]
        show some '-' = some (toDashChar a)
        unfold toDashChar
        rw [if_pos ha]
    · rw [if_neg ha]
      show some a = some (toDashChar a)
      unfold toDashChar
      rw [if_neg ha]

theorem rdr_rsr_eq_squeeze :
    ∀ l, replaceDashRuns (replaceSpaceRuns l) = squeezeSpaceDash l := by
  intro l
  induction l using twoStepInd with
  | h1 => rfl
  | h2 c =>
    have hsq : squeezeSpaceDash [c] = [toDashChar c] := by
      rw [squeeze_cons, if_neg (fun hcon => Option.noConfusion hcon.2)]
      rfl
    rw [hsq]
    show replaceDashRuns (if isJsSpace c then ['-'] else [c]) = _
    by_cases hc : isJsSpace c
    · rw [if_pos hc]
      show ['-'] = [toDashChar c]
      unfold toDashChar
      rw [if_pos hc]
    · rw [if_neg hc]
      show [c] = [toDashChar c]
      unfold toDashChar
      rw [if_neg hc]
  | h3 a b t ih =>
    have hhead : (replaceSpaceRuns (b :: t)).head? = some (toDashChar b) :=
      head?_replaceSpaceRuns (b :: t)
    rw [rsr_cons_cons, squeeze_cons, head?_squeezeSpaceDash]
    by_cases ha : isJsSpace a
    · by_cases hb : isJsSpace b
      · rw [if_pos ha, if_pos hb, ih,
          if_pos (And.intro (by unfold toDashChar; rw [if_pos ha])
            (by unfold toDashChar; rw [if_pos hb]))]
      · rw [if_pos ha, if_neg hb]
        rcases hR : replaceSpaceRuns (b :: t) with _ | ⟨x, t2⟩
        · rw [hR] at hhead
          simp at hhead
        · have hx : x = toDashChar b := by
            rw [hR] at hhead
            exact Option.some.inj hhead
          rw [rdr_cons_cons]
          by_cases hbd : x = '-'
          · rw [if_pos (And.intro rfl hbd), ← hR, ih,
              if_pos (And.intro (by unfold toDashChar; rw [if_pos ha])
                (by rw [← hx, hbd]))]
          · rw [if_neg (fun hcon => hbd hcon.2), ← hR, ih,
              if_neg (fun hcon => hbd (by rw [hx]; exact Option.some.inj hcon.2)),
              show toDashChar a = '-' from by unfold toDashChar; rw [if_pos ha]]
    · rw [if_neg ha]
      rcases hR : replaceSpaceRuns (b :: t) with _ | ⟨x, t2⟩
      · rw [hR] at hhead
        simp at hhead
      · have hx : x = toDashChar b := by
          rw [hR] at hhead
          exact Option.some.inj hhead
        rw [rdr_cons_cons]
        by_cases hcond : a = '-' ∧ x = '-'
        · rw [if_pos hcond, ← hR, ih,
            if_pos (And.intro (by unfold toDashChar; rw [if_neg ha]; exact hcond.1)
              (by rw [← hx, hcond.2]))]
        · rw [if_neg hcond, ← hR, ih,
            if_neg (fun hcon => hcond (And.intro
              (by have := hcon.1; unfold toDashChar at this; rw [if_neg ha] at this; exact this)
              (by rw [hx]; exact Option.some.inj hcon.2))),
            show toDashChar a = a from by unfold toDashChar; rw [if_neg ha]]

theorem beq_dash_eq_toNat_beq (c : Char) : (c == '-') = (c.toNat == 45) := by
  by_cases h : c = '-'
  · subst h
    rfl
  · have h2 : (c.toNat == 45) = false :=
      beq_eq_false_iff_ne.mpr
        (fun hn => h (char_eq_of_toNat_eq (by rw [hn]; rfl)))
    rw [h2, beq_eq_false_iff_ne.mpr h]

theorem dropTrailDashOnce_eq (l : List Char) :
    dropTrailDashOnce l = trimTrailDash l := by
  unfold dropTrailDashOnce trimTrailDash
  rcases hrev : l.reverse with _ | ⟨c, t⟩
  · have hl : l = [] := by simpa using congrArg List.reverse hrev
    subst hl
    simp
  · have hlast : l.getLast? = some c := by
      rw [← List.head?_reverse, hrev]
      rfl
    show (if c = '-' then t.reverse else l) =
      if l.getLast? = some '-' then l.dropLast else l
    have htail := List.tail_reverse l
    rw [hrev] at htail
    simp only [List.tail_cons] at htail
    by_cases hc : c = '-'
    · rw [if_pos hc, hlast, if_pos (by rw [hc]), htail, List.reverse_reverse]
    · rw [if_neg hc, hlast, if_neg (by simp [hc])]

theorem trimOneDashEnds_eq (l : List Char) : trimOneDashEnds l = trimDashes l := by
  unfold trimOneDashEnds trimDashes trimLeadDash
  cases l with
  | nil =>
    rw [dropTrailDashOnce_eq]
    rfl
  | cons c rest =>
    by_cases hc : c = '-'
    · show (if c = '-' then dropTrailDashOnce rest
            else dropTrailDashOnce (c :: rest)) = _
      rw [if_pos hc, dropTrailDashOnce_eq]
      congr 1
      rw [if_pos (by simp [hc])]
      rfl
    · show (if c = '-' then dropTrailDashOnce rest
            else dropTrailDashOnce (c :: rest)) = _
      rw [if_neg hc, dropTrailDashOnce_eq]
      congr 1
      rw [if_neg (by simp [hc])]

/-- C6 (amended): the slug is computed by lowercasing, stripping every
character that is neither a word character, whitespace nor a hyphen,
replacing each whitespace character by a hyphen, collapsing each hyphen
run to a single hyphen, and trimming one leading and one trailing
hyphen; in particular slugify "Gray's Anatomy" = "grays-anatomy". -/
theorem slugify_spec_amended :
    (∀ s, slugify s = slugifySpecFixed s) ∧
    slugify ("Gray's Anatomy".data) = ("grays-anatomy".data) := by
  refine ⟨?_, by decide⟩
  intro s
  unfold slugify slugifySpecFixed
  have hfil : (s.map Char.toLower).filter
      (fun c => isWordChar c || isJsSpace c || c == '-') =
      (s.map Char.toLower).filter keepSlugChar := by
    apply List.filter_congr
    intro c _
    unfold keepSlugChar
    rw [beq_dash_eq_toNat_beq]
  rw [hfil, trimOneDashEnds_eq, squeezeDashes_map_toDash,
    ← rdr_rsr_eq_squeeze]

/-- A browser File as visible to addFiles: name and byte size. -/
structure MFile where
  name : List Char
  size : Nat
deriving DecidableEq, Repr

/-- Node path.extname restricted to bare file names (a browser File
name has no path separators): the substring from the last dot; empty
when there is no dot, when the only dot is the leading character, or
for the name "..". -/
def extname (l : List Char) : List Char :=
  let after := (l.reverse.takeWhile (fun c => c != '.')).reverse
  if l.contains '.' = false then []
  else if after.length + 1 = l.length then []
  else if l = ['.', '.'] then []
  else '.' :: after

/-- Node path.basename(name, ext) restricted to bare file names: drop
the extension when it is a nonempty suffix of the name different from
the whole name. -/
def basenameDrop (name ext : List Char) : List Char :=
  if ext ≠ [] ∧ ext.isSuffixOf name ∧ name ≠ ext then
    name.take (name.length - ext.length)
  else name

/-- titleFromFilename (src/main.ts:62-64): file name without its
extension, trimmed. -/
def titleFromFilename (filename : List Char) : List Char :=
  jsTrim (basenameDrop filename (extname filename))

/-- The lowercased file name ends with ".pdf" (src/main.ts:477). -/
def isPdfName (name : List Char) : Bool :=
  (".pdf".data).isSuffixOf (name.map Char.toLower)

/-- A file card entry (interface FileEntry, src/main.ts:342-346). -/
structure FileEntry where
  file : MFile
  title : List Char
  sourceType : SourceType
deriving DecidableEq, Repr

/-- Entry pushed for a newly accepted file (src/main.ts:479-483). -/
def mkEntry (f : MFile) : FileEntry :=
  { file := f, title := titleFromFilename f.name,
    sourceType := guessSourceType f.name }

/-- addFiles (src/main.ts:474-486): fold over the incoming file list,
skipping names that do not end in ".pdf" and files agreeing in name and
size with an existing entry, appending a new entry otherwise. -/
def addFiles (entries : List FileEntry) (files : List MFile) : List FileEntry :=
  files.foldl (fun acc f =>
    if isPdfName f.name = false then acc
    else if (acc.any fun e => e.file.name == f.name && e.file.size == f.size) = true
    then acc
    else acc ++ [mkEntry f]) entries

/-- The two operations that can change the modal's entries list: adding
files and removing one entry with splice(i, 1) (src/main.ts:518-521). -/
inductive ModalOp where
  | add (files : List MFile)
  | remove (i : Nat)

def applyOp (es : List FileEntry) : ModalOp → List FileEntry
  | ModalOp.add fs => addFiles es fs
  | ModalOp.remove i => es.eraseIdx i

/-- Entries state after a sequence of operations, starting from the
empty list the modal opens with. -/
def applyOps (ops : List ModalOp) : List FileEntry :=
  ops.foldl applyOp []

/-- No two entries agree on both file name and byte size. -/
def entriesDistinct (es : List FileEntry) : Prop :=
  es.Pairwise (fun a b => ¬(a.file.name = b.file.name ∧ a.file.size = b.file.size))

theorem addFiles_nil (es : List FileEntry) : addFiles es [] = es := rfl

theorem addFiles_cons (es : List FileEntry) (f : MFile) (fs : List MFile) :
    addFiles es (f :: fs) = addFiles
      (if isPdfName f.name = false then es
       else if (es.any fun e => e.file.name == f.name && e.file.size == f.size) = true
       then es
       else es ++ [mkEntry f]) fs := rfl

theorem addFiles_distinct {es : List FileEntry} (fs : List MFile)
    (h : entriesDistinct es) : entriesDistinct (addFiles es fs) := by
  induction fs generalizing es with
  | nil => exact h
  | cons f fs ih =>
    rw [addFiles_cons]
    by_cases h1 : isPdfName f.name = false
    · rw [if_pos h1]
      exact ih h
    · rw [if_neg h1]
      by_cases h2 : (es.any fun e => e.file.name == f.name && e.file.size == f.size) = true
      · rw [if_pos h2]
        exact ih h
      · rw [if_neg h2]
        apply ih
        unfold entriesDistinct
        rw [List.pairwise_append]
        refine ⟨h, List.pairwise_singleton _ _, ?_⟩
        intro a ha b hb
        rw [List.mem_singleton] at hb
        subst hb
        intro hcon
        apply h2
        apply List.any_eq_true.mpr
        refine ⟨a, ha, ?_⟩
        have hn : a.file.name = f.name := hcon.1
        have hs : a.file.size = f.size := hcon.2
        rw [hn, hs]
        simp

theorem eraseIdx_distinct {es : List FileEntry} (i : Nat)
    (h : entriesDistinct es) : entriesDistinct (es.eraseIdx i) :=
  h.sublist (List.eraseIdx_sublist es i)

theorem applyOps_distinct_from (ops : List ModalOp) :
    ∀ es, entriesDistinct es → entriesDistinct (ops.foldl applyOp es) := by
  induction ops with
  | nil => exact fun _ h => h
  | cons op ops ih =>
    intro es h
    show entriesDistinct (ops.foldl applyOp (applyOp es op))
    apply ih
    cases op with
    | add fs => exact addFiles_distinct fs h
    | remove i => exact eraseIdx_distinct i h

/-- C8: addFiles skips a file whose name and size match an existing
entry; the entries list reached by any sequence of add and remove
operations never holds two entries with the same name and size pair;
and adding two files with identical name and size to an empty list
yields exactly the one entry built from the first. -/
theorem addFiles_dedup_invariant :
    (∀ es f, (∃ e ∈ es, e.file.name = f.name ∧ e.file.size = f.size) →
      addFiles es [f] = es) ∧
    (∀ ops : List ModalOp, entriesDistinct (applyOps ops)) ∧
    (∀ f g : MFile, isPdfName f.name = true → f.name = g.name →
      f.size = g.size → addFiles [] [f, g] = [mkEntry f]) := by
  refine ⟨?_, ?_, ?_⟩
  · intro es f hex
    rw [addFiles_cons]
    by_cases h1 : isPdfName f.name = false
    · rw [if_pos h1, addFiles_nil]
    · rw [if_neg h1]
      obtain ⟨e, he, hn, hs⟩ := hex
      rw [if_pos (List.any_eq_true.mpr ⟨e, he, by rw [hn, hs]; simp⟩), addFiles_nil]
  · intro ops
    exact applyOps_distinct_from ops [] (List.Pairwise.nil)
  · intro f g hp hn hs
    rw [addFiles_cons, if_neg (by rw [hp]; exact fun hcon => Bool.noConfusion hcon),
      if_neg (by simp), List.nil_append, addFiles_cons,
      if_neg (by rw [← hn, hp]; exact fun hcon => Bool.noConfusion hcon)]
    rw [if_pos (by apply List.any_eq_true.mpr; exact ⟨mkEntry f, List.mem_singleton_self _,
      by show (f.name == g.name && f.size == g.size) = true; rw [hn, hs]; simp⟩)]
    rw [addFiles_nil]

/-- C8 witness: two copies of the same PDF file produce one entry, and
re-adding a file already present changes nothing. -/
theorem addFiles_dedup_invariant_witness :
    addFiles [] [MFile.mk ("a.pdf".data) 3, MFile.mk ("a.pdf".data) 3] =
      [mkEntry (MFile.mk ("a.pdf".data) 3)] ∧
    addFiles [mkEntry (MFile.mk ("a.pdf".data) 3)] [MFile.mk ("a.pdf".data) 3] =
      [mkEntry (MFile.mk ("a.pdf".data) 3)] :=
  And.intro
    (addFiles_dedup_invariant.2.2 (MFile.mk ("a.pdf".data) 3)
      (MFile.mk ("a.pdf".data) 3) (by decide) rfl rfl)
    (addFiles_dedup_invariant.1 [mkEntry (MFile.mk ("a.pdf".data) 3)]
      (MFile.mk ("a.pdf".data) 3)
      ⟨mkEntry (MFile.mk ("a.pdf".data) 3), List.mem_singleton_self _, rfl, rfl⟩)

/-- C10: addFiles appends entries only for files whose lowercased name
ends in ".pdf"; a file with any other name is ignored and leaves the
entries list unchanged. -/
theorem addFiles_pdf_filter :
    (∀ es fs, ∃ new, addFiles es fs = es ++ new ∧
      ∀ e ∈ new, isPdfName e.file.name = true) ∧
    (∀ es f, isPdfName f.name = false → addFiles es [f] = es) := by
  constructor
  · intro es fs
    induction fs generalizing es with
    | nil =>
      exact ⟨[], by rw [addFiles_nil, List.append_nil],
        fun e he => absurd he (List.not_mem_nil e)⟩
    | cons f fs ih =>
      rw [addFiles_cons]
      by_cases h1 : isPdfName f.name = false
      · rw [if_pos h1]
        exact ih es
      · rw [if_neg h1]
        by_cases h2 : (es.any fun e => e.file.name == f.name && e.file.size == f.size) = true
        · rw [if_pos h2]
          exact ih es
        · rw [if_neg h2]
          obtain ⟨new, hnew, hall⟩ := ih (es ++ [mkEntry f])
          refine ⟨mkEntry f :: new, ?_, ?_⟩
          · rw [hnew, List.append_assoc, List.singleton_append]
          · intro e he
            rcases List.mem_cons.mp he with h | h
            · subst h
              cases hb : isPdfName f.name with
              | false => exact absurd hb h1
              | true => exact hb
            · exact hall e h
  · intro es f hf
    rw [addFiles_cons, if_pos hf, addFiles_nil]

/-- C10 witness: adding a single text file leaves the entries empty. -/
theorem addFiles_pdf_filter_witness :
    addFiles [] [MFile.mk ("a.txt".data) 1] = [] :=
  addFiles_pdf_filter.2 [] (MFile.mk ("a.txt".data) 1) (by decide)

/-- Saved Collection record (src/settings.ts:13-18). -/
structure SavedCollection where
  name : List Char
  year : List Char
  authors : List Char
  defaultSourceType : SourceType
deriving DecidableEq, Repr

/-- The modal input state read by validate and submit: the entries list
and the raw text of the collection, year and authors inputs. -/
structure ModalState where
  entries : List FileEntry
  collectionValue : List Char
  yearValue : List Char
  authorsValue : List Char

/-- validate (src/main.ts:525-533): empty entries list, blank trimmed
collection name, blank trimmed year, or a first entry with a blank
trimmed title produce the corresponding message; otherwise none. -/
def validate (m : ModalState) : Option (List Char) :=
  if m.entries.length = 0 then some ("Add at least one PDF.".data)
  else if jsTrim m.collectionValue = [] then some ("Enter a collection name.".data)
  else if jsTrim m.yearValue = [] then some ("Enter a year or edition.".data)
  else
    match m.entries.find? (fun e => (jsTrim e.title).isEmpty) with
    | some e => some (("A file is missing a title (".data ++ e.file.name) ++ (").".data))
    | none => none

/-- Filesystem effects submit can perform, in order. -/
inductive Effect where
  | mkdirRec (path : List Char)
  | copyFile (dest : List Char) (src : MFile)
  | writeManifest (path : List Char) (content : List Char)
deriving DecidableEq, Repr

/-- path.join restricted to separator-free non-empty components. -/
def joinPath (a b : List Char) : List Char := a ++ '/' :: b

/-- The literal string value of each source type (src/settings.ts:4). -/
def sourceTypeStr : SourceType → List Char
  | SourceType.textbook => "textbook".data
  | SourceType.paper => "paper".data
  | SourceType.presentation => "presentation".data
  | SourceType.dataset => "dataset".data

/-- Manifest header row (src/main.ts:563). -/
def manifestHeader : List Char :=
  ("source_path,source_type,book_or_collection,chapter_or_title,edition_or_year,authors,citation_key,region,priority,notes".data)

/-- One manifest CSV row (src/main.ts:564-578): ten escaped fields
joined by commas, with the fixed region "general", priority "normal"
and empty notes. -/
def manifestRow (collectionName year authors destPath : List Char)
    (e : FileEntry) : List Char :=
  List.intercalate [','] [escapeCSV destPath,
    escapeCSV (sourceTypeStr e.sourceType), escapeCSV collectionName,
    escapeCSV e.title, escapeCSV year, escapeCSV authors,
    escapeCSV (buildCitationKey collectionName e.title), "general".data,
    "normal".data, []]

/-- Array.prototype.findIndex by exact name followed by replace-or-push
(src/main.ts:595-598). -/
def upsertByName (saved : List SavedCollection) (col : SavedCollection) :
    List SavedCollection :=
  match saved.findIdx? (fun c => c.name == col.name) with
  | some i => saved.set i col
  | none => saved ++ [col]

/-- Recursive phrasing of the upsert, used in proofs. -/
def upsertRec : List SavedCollection → SavedCollection → List SavedCollection
  | [], col => [col]
  | c :: cs, col =>
    if (c.name == col.name) = true then col :: cs else c :: upsertRec cs col

/-- Result of one submit call: the validation error if any, the
filesystem effects performed in order, and the saved-collections list
afterwards. -/
structure SubmitResult where
  error : Option (List Char)
  effects : List Effect
  savedCollections : List SavedCollection

/-- submit (src/main.ts:535-609) up to the hand-off to runIngest: a
validation error stops everything with no effects; otherwise create the
destination directory raw-pdfs/slug, copy each entry's file there,
create the manifests directory, write the manifest CSV built from the
trimmed inputs, and upsert the Saved Collection record.  isoNow stands
for the value of new Date().toISOString(). -/
def submit (pipelineDir : List Char) (saved : List SavedCollection)
    (m : ModalState) (isoNow : List Char) : SubmitResult :=
  match validate m with
  | some err => { error := some err, effects := [], savedCollections := saved }
  | none =>
    let collectionName := jsTrim m.collectionValue
    let year := jsTrim m.yearValue
    let authors := jsTrim m.authorsValue
    let collectionSlug := slugify collectionName
    let destDir := joinPath (joinPath pipelineDir ("raw-pdfs".data)) collectionSlug
    let copyFx := m.entries.map
      (fun e => Effect.copyFile (joinPath destDir e.file.name) e.file)
    let rows := m.entries.map
      (fun e => manifestRow collectionName year authors
        (joinPath destDir e.file.name) e)
    let csvContent := List.intercalate ['\n'] (manifestHeader :: rows)
    let ts := (isoNow.map
      (fun c => if c = ':' ∨ c = '.' then '-' else c)).take 19
    let manifestsDir := joinPath (joinPath pipelineDir ("data".data)) ("manifests".data)
    let manifestName := (collectionSlug ++ '-' :: ts) ++ (".manifest.csv".data)
    let manifestPath := joinPath manifestsDir manifestName
    let col : SavedCollection :=
      { name := collectionName, year := year, authors := authors,
        defaultSourceType :=
          ((m.entries.head?).map FileEntry.sourceType).getD SourceType.textbook }
    { error := none,
      effects := Effect.mkdirRec destDir :: copyFx ++
        [Effect.mkdirRec manifestsDir, Effect.writeManifest manifestPath csvContent],
      savedCollections := upsertByName saved col }

theorem upsertRec_cons (c : SavedCollection) (cs : List SavedCollection)
    (col : SavedCollection) :
    upsertRec (c :: cs) col =
      if (c.name == col.name) = true then col :: cs
      else c :: upsertRec cs col := rfl

theorem upsertByName_eq_rec :
    ∀ saved col, upsertByName saved col = upsertRec saved col := by
  intro saved col
  induction saved with
  | nil => rfl
  | cons c cs ih =>
    unfold upsertByName
    rw [List.findIdx?_cons, upsertRec_cons]
    by_cases hc : (c.name == col.name) = true
    · rw [if_pos hc, if_pos hc]
      rfl
    · rw [if_neg hc, if_neg hc, List.findIdx?_succ, ← ih]
      unfold upsertByName
      cases hfi : List.findIdx? (fun x => x.name == col.name) cs with
      | none => rfl
      | some i => rfl

theorem upsertRec_countP {saved : List SavedCollection} (col : SavedCollection)
    (h : saved.Pairwise (fun a b => a.name ≠ b.name)) :
    (upsertRec saved col).countP (fun c => c.name == col.name) = 1 := by
  induction saved with
  | nil =>
    show List.countP _ [col] = 1
    rw [List.countP_cons]
    simp
  | cons c cs ih =>
    rw [upsertRec_cons]
    by_cases hc : (c.name == col.name) = true
    · rw [if_pos hc, List.countP_cons]
      have hcs : cs.countP (fun x => x.name == col.name) = 0 := by
        apply List.countP_eq_zero.mpr
        intro a ha hcon
        have hne : c.name ≠ a.name := (List.pairwise_cons.mp h).1 a ha
        exact hne ((eq_of_beq hc).trans (eq_of_beq hcon).symm)
      rw [hcs]
      simp
    · rw [if_neg hc, List.countP_cons, ih (List.pairwise_cons.mp h).2]
      have hcf : (c.name == col.name) = false := by
        cases hb : c.name == col.name with
        | false => rfl
        | true => exact absurd hb hc
      rw [hcf]
      simp

theorem upsertRec_length (saved : List SavedCollection) (col : SavedCollection) :
    (upsertRec saved col).length = saved.length ∨
    (upsertRec saved col).length = saved.length + 1 := by
  induction saved with
  | nil => right; rfl
  | cons c cs ih =>
    rw [upsertRec_cons]
    by_cases hc : (c.name == col.name) = true
    · rw [if_pos hc]
      left
      rfl
    · rw [if_neg hc]
      rcases ih with h | h
      · left
        simp only [List.length_cons, h]
      · right
        simp only [List.length_cons, h]

theorem upsertRec_get?_ne (saved : List SavedCollection) (col : SavedCollection) :
    ∀ i c2, saved.get? i = some c2 → c2.name ≠ col.name →
      (upsertRec saved col).get? i = some c2 := by
  induction saved with
  | nil =>
    intro i c2 hi _
    simp at hi
  | cons c cs ih =>
    intro i c2 hi hne
    rw [upsertRec_cons]
    by_cases hc : (c.name == col.name) = true
    · rw [if_pos hc]
      cases i with
      | zero =>
        rw [List.get?_cons_zero] at hi
        have hcc : c = c2 := Option.some.inj hi
        exact absurd (hcc ▸ eq_of_beq hc) hne
      | succ j =>
        rw [List.get?_cons_succ] at hi ⊢
        exact hi
    · rw [if_neg hc]
      cases i with
      | zero =>
        rw [List.get?_cons_zero] at hi ⊢
        exact hi
      | succ j =>
        rw [List.get?_cons_succ] at hi ⊢
        exact ih j c2 hi hne

theorem upsertRec_not_mem (saved : List SavedCollection) (col : SavedCollection)
    (h : ∀ c ∈ saved, c.name ≠ col.name) :
    upsertRec saved col = saved ++ [col] := by
  induction saved with
  | nil => rfl
  | cons c cs ih =>
    rw [upsertRec_cons]
    have hcf : (c.name == col.name) = true → False :=
      fun hb => h c (List.mem_cons_self c cs) (eq_of_beq hb)
    rw [if_neg hcf, ih (fun x hx => h x (List.mem_cons_of_mem c hx))]
    rfl

theorem upsertRec_mem_length (saved : List SavedCollection) (col : SavedCollection)
    (h : ∃ c ∈ saved, c.name = col.name) :
    (upsertRec saved col).length = saved.length := by
  induction saved with
  | nil =>
    obtain ⟨c, hc, _⟩ := h
    exact absurd hc (List.not_mem_nil c)
  | cons c cs ih =>
    rw [upsertRec_cons]
    by_cases hc : (c.name == col.name) = true
    · rw [if_pos hc]
      rfl
    · rw [if_neg hc]
      obtain ⟨c2, hc2, hname⟩ := h
      rcases List.mem_cons.mp hc2 with he | he
      · subst he
        exact absurd (beq_iff_eq.mpr hname) hc
      · simp only [List.length_cons]
        rw [ih ⟨c2, he, hname⟩]

theorem validate_eq_none_iff (m : ModalState) :
    validate m = none ↔
      (m.entries ≠ [] ∧ jsTrim m.collectionValue ≠ [] ∧
       jsTrim m.yearValue ≠ [] ∧ ∀ e ∈ m.entries, jsTrim e.title ≠ []) := by
  unfold validate
  by_cases h1 : m.entries.length = 0
  · rw [if_pos h1]
    constructor
    · intro h
      exact absurd h (by simp)
    · intro h
      exact absurd (List.length_eq_zero.mp h1) h.1
  · rw [if_neg h1]
    by_cases h2 : jsTrim m.collectionValue = []
    · rw [if_pos h2]
      constructor
      · intro h
        exact absurd h (by simp)
      · intro h
        exact absurd h2 h.2.1
    · rw [if_neg h2]
      by_cases h3 : jsTrim m.yearValue = []
      · rw [if_pos h3]
        constructor
        · intro h
          exact absurd h (by simp)
        · intro h
          exact absurd h3 h.2.2.1
      · rw [if_neg h3]
        cases hf : m.entries.find? (fun e => (jsTrim e.title).isEmpty) with
        | some e =>
          constructor
          · intro h
            exact absurd h (by simp)
          · intro h
            have hmem := List.mem_of_find?_eq_some hf
            have hpe := List.find?_some hf
            exact absurd (List.isEmpty_iff.mp hpe) (h.2.2.2 e hmem)
        | none =>
          constructor
          · intro _
            refine ⟨fun hcon => h1 (by rw [hcon]; rfl), h2, h3, ?_⟩
            intro e he hcon
            have hne := List.find?_eq_none.mp hf e he
            exact hne (by rw [hcon]; rfl)
          · intro _
            rfl

theorem submit_error_none_iff (pipelineDir : List Char)
    (saved : List SavedCollection) (m : ModalState) (isoNow : List Char) :
    (submit pipelineDir saved m isoNow).error = none ↔ validate m = none := by
  unfold submit
  cases hval : validate m with
  | some err => simp
  | none => simp

theorem submit_effects_of_error (pipelineDir : List Char)
    (saved : List SavedCollection) (m : ModalState) (isoNow : List Char)
    (h : validate m ≠ none) :
    (submit pipelineDir saved m isoNow).effects = [] ∧
    (submit pipelineDir saved m isoNow).savedCollections = saved := by
  unfold submit
  cases hval : validate m with
  | some err => exact ⟨rfl, rfl⟩
  | none => exact absurd hval h

theorem submit_saved_eq (pipelineDir : List Char) (saved : List SavedCollection)
    (m : ModalState) (isoNow : List Char) (h : validate m = none) :
    (submit pipelineDir saved m isoNow).savedCollections =
      upsertByName saved
        { name := jsTrim m.collectionValue, year := jsTrim m.yearValue,
          authors := jsTrim m.authorsValue,
          defaultSourceType :=
            ((m.entries.head?).map FileEntry.sourceType).getD SourceType.textbook } := by
  unfold submit
  rw [h]

/-- C2: when the entries list is empty, the trimmed collection name is
empty, the trimmed year is empty, or some entry has a blank trimmed
title, submit reports a validation error, performs no filesystem effect
(no directory creation, no file copy, no manifest write), and leaves
the saved collections unchanged. -/
theorem submit_validation_gate (pipelineDir : List Char)
    (saved : List SavedCollection) (m : ModalState) (isoNow : List Char)
    (h : m.entries = [] ∨ jsTrim m.collectionValue = [] ∨
      jsTrim m.yearValue = [] ∨ ∃ e ∈ m.entries, jsTrim e.title = []) :
    (submit pipelineDir saved m isoNow).error ≠ none ∧
    (submit pipelineDir saved m isoNow).effects = [] ∧
    (submit pipelineDir saved m isoNow).savedCollections = saved := by
  have hv : validate m ≠ none := by
    intro hn
    obtain ⟨h1, h2, h3, h4⟩ := (validate_eq_none_iff m).mp hn
    rcases h with h | h | h | ⟨e, he, ht⟩
    · exact h1 h
    · exact h2 h
    · exact h3 h
    · exact h4 e he ht
  have hfx := submit_effects_of_error pipelineDir saved m isoNow hv
  exact ⟨fun hcon => hv ((submit_error_none_iff pipelineDir saved m isoNow).mp hcon),
    hfx.1, hfx.2⟩

/-- C2 witness: submitting with no files reports an error and performs
no effect. -/
theorem submit_validation_gate_witness :
    (submit [] [] (ModalState.mk [] ("Book".data) ("2023".data) []) []).error ≠ none ∧
    (submit [] [] (ModalState.mk [] ("Book".data) ("2023".data) []) []).effects = [] ∧
    (submit [] [] (ModalState.mk [] ("Book".data) ("2023".data) []) []).savedCollections = [] :=
  submit_validation_gate [] [] (ModalState.mk [] ("Book".data) ("2023".data) []) []
    (Or.inl rfl)

/-- C9: after a successful submit over a saved-collections list without
duplicate names, exactly one record carries the submitted collection
name; the list keeps its length or grows by one, never shrinking
(replaced in place when a record with that exact name existed, appended
otherwise); and every record with a different name keeps its value and
position. -/
theorem submit_upsert_saved (pipelineDir : List Char)
    (saved : List SavedCollection) (m : ModalState) (isoNow : List Char)
    (hok : (submit pipelineDir saved m isoNow).error = none)
    (hdistinct : saved.Pairwise (fun a b => a.name ≠ b.name)) :
    ((submit pipelineDir saved m isoNow).savedCollections.countP
      (fun c => c.name == jsTrim m.collectionValue) = 1) ∧
    ((submit pipelineDir saved m isoNow).savedCollections.length = saved.length ∨
     (submit pipelineDir saved m isoNow).savedCollections.length = saved.length + 1) ∧
    (∀ i c2, saved.get? i = some c2 → c2.name ≠ jsTrim m.collectionValue →
      (submit pipelineDir saved m isoNow).savedCollections.get? i = some c2) ∧
    ((∃ c ∈ saved, c.name = jsTrim m.collectionValue) →
      (submit pipelineDir saved m isoNow).savedCollections.length = saved.length) ∧
    ((∀ c ∈ saved, c.name ≠ jsTrim m.collectionValue) →
      ∃ col, col.name = jsTrim m.collectionValue ∧
        (submit pipelineDir saved m isoNow).savedCollections = saved ++ [col]) := by
  have hvm : validate m = none :=
    (submit_error_none_iff pipelineDir saved m isoNow).mp hok
  rw [submit_saved_eq pipelineDir saved m isoNow hvm, upsertByName_eq_rec]
  refine ⟨?_, ?_, ?_, ?_, ?_⟩
  · exact upsertRec_countP
      { name := jsTrim m.collectionValue, year := jsTrim m.yearValue,
        authors := jsTrim m.authorsValue,
        defaultSourceType :=
          ((m.entries.head?).map FileEntry.sourceType).getD SourceType.textbook }
      hdistinct
  · exact upsertRec_length _ _
  · intro i c2 hi hne
    exact upsertRec_get?_ne _ _ i c2 hi hne
  · intro hex
    exact upsertRec_mem_length _ _ hex
  · intro hnone
    exact ⟨_, rfl, upsertRec_not_mem _ _ hnone⟩

/-- C9 witness: submitting one PDF entry under the name "Book" over an
empty saved-collections list leaves exactly one record named "Book". -/
theorem submit_upsert_saved_witness :
    (submit [] [] (ModalState.mk
      [FileEntry.mk (MFile.mk ("a.pdf".data) 1) ("A".data) SourceType.paper]
      ("Book".data) ("2023".data) []) []).savedCollections.countP
      (fun c => c.name == jsTrim ("Book".data)) = 1 :=
  (submit_upsert_saved [] []
    (ModalState.mk
      [FileEntry.mk (MFile.mk ("a.pdf".data) 1) ("A".data) SourceType.paper]
      ("Book".data) ("2023".data) []) []
    (by decide) List.Pairwise.nil).1

/-- Outcome of one spawn of the pipeline process: either the spawn
fails with an error, or the process runs to completion with an exit
code and the captured stdout and stderr text. -/
inductive SpawnOutcome where
  | spawnError (err : List Char)
  | exited (code : Int) (stdout : List Char) (stderr : List Char)

/-- The close handler of runPipelineCmd (src/main.ts:700-706): on a
non-zero exit code reject with the trimmed stderr, or with the generic
exit-code message when the trimmed stderr is empty (the JavaScript
or-expression); resolve with the captured stdout otherwise. -/
def handleClose (code : Int) (stdout stderr : List Char) :
    Except (List Char) (List Char) :=
  if code ≠ 0 then
    Except.error (if (jsTrim stderr).isEmpty
      then ("Process exited with code ".data) ++ (toString code).data
      else jsTrim stderr)
  else Except.ok stdout

/-- runPipelineCmd (src/main.ts:684-710) as a function of the spawn
outcome the environment produces for the given argument list: a spawn
error rejects with that error, an exit is settled by the close
handler. -/
def runPipelineCmd (world : List (List Char) → SpawnOutcome)
    (args : List (List Char)) : Except (List Char) (List Char) :=
  match world args with
  | SpawnOutcome.spawnError e => Except.error e
  | SpawnOutcome.exited code out err => handleClose code out err

/-- C1: for every argument list, runPipelineCmd returns the captured
stdout exactly on exit code zero; on a non-zero exit it fails with the
trimmed captured stderr when that is non-empty and with the message
"Process exited with code <code>" when it is empty; on spawn failure it
fails with the spawn error. -/
theorem runPipelineCmd_spec (world : List (List Char) → SpawnOutcome)
    (args : List (List Char)) :
    (∀ out err, world args = SpawnOutcome.exited 0 out err →
      runPipelineCmd world args = Except.ok out) ∧
    (∀ code out err, world args = SpawnOutcome.exited code out err →
      code ≠ 0 → jsTrim err ≠ [] →
      runPipelineCmd world args = Except.error (jsTrim err)) ∧
    (∀ code out err, world args = SpawnOutcome.exited code out err →
      code ≠ 0 → jsTrim err = [] →
      runPipelineCmd world args =
        Except.error (("Process exited with code ".data) ++ (toString code).data)) ∧
    (∀ e, world args = SpawnOutcome.spawnError e →
      runPipelineCmd world args = Except.error e) := by
  refine ⟨?_, ?_, ?_, ?_⟩
  · intro out err hw
    unfold runPipelineCmd
    rw [hw]
    show handleClose 0 out err = Except.ok out
    unfold handleClose
    rw [if_neg (fun hcon => hcon rfl)]
  · intro code out err hw hc he
    unfold runPipelineCmd
    rw [hw]
    show handleClose code out err = Except.error (jsTrim err)
    unfold handleClose
    rw [if_pos hc, if_neg (fun hcon => he (List.isEmpty_iff.mp hcon))]
  · intro code out err hw hc he
    unfold runPipelineCmd
    rw [hw]
    show handleClose code out err =
      Except.error (("Process exited with code ".data) ++ (toString code).data)
    unfold handleClose
    rw [if_pos hc, if_pos (by rw [he]; rfl)]
  · intro e hw
    unfold runPipelineCmd
    rw [hw]

/-- Environment in which every spawn exits cleanly with output "out". -/
def worldOk : List (List Char) → SpawnOutcome :=
  fun _ => SpawnOutcome.exited 0 ("out".data) []

/-- Environment in which every spawn exits with code 1 and padded
stderr text. -/
def worldErrText : List (List Char) → SpawnOutcome :=
  fun _ => SpawnOutcome.exited 1 [] ("  boom ".data)

/-- Environment in which every spawn exits with code 3 and blank
stderr. -/
def worldErrCode : List (List Char) → SpawnOutcome :=
  fun _ => SpawnOutcome.exited 3 [] ("  ".data)

/-- Environment in which every spawn fails outright. -/
def worldSpawnFail : List (List Char) → SpawnOutcome :=
  fun _ => SpawnOutcome.spawnError ("bad".data)

/-- C1 witness: the four behaviours at concrete environments. -/
theorem runPipelineCmd_spec_witness :
    runPipelineCmd worldOk [] = Except.ok ("out".data) ∧
    runPipelineCmd worldErrText [] = Except.error ("boom".data) ∧
    runPipelineCmd worldErrCode [] =
      Except.error ("Process exited with code 3".data) ∧
    runPipelineCmd worldSpawnFail [] = Except.error ("bad".data) := by
  refine ⟨?_, ?_, ?_, ?_⟩
  · exact (runPipelineCmd_spec worldOk []).1 ("out".data) [] rfl
  · rw [(runPipelineCmd_spec worldErrText []).2.1 1 [] ("  boom ".data) rfl
      (by decide) (by decide)]
    exact congrArg Except.error (by decide)
  · rw [(runPipelineCmd_spec worldErrCode []).2.2.1 3 [] ("  ".data) rfl
      (by decide) (by decide)]
    exact congrArg Except.error (by decide)
  · exact (runPipelineCmd_spec worldSpawnFail []).2.2.2 ("bad".data) rfl
